import Mathlib

/-!
Verification of the input-normalization core of StemCenterAnalytics.

The Python modules `stem_center_analytics/core/input_validation.py` and
`stem_analytics/core/input_validation.py` (with `stem_analytics/utils/strings.py`)
are shallowly embedded below.  Python strings are modelled as `String`
(operations run over `String.data : List Char`), Python `None`-or-value results
as `Option`, and raised exceptions as the `error` side of `Except PErr`, where
`PErr` records the distinguishing content of each error message as structured
data.  The externally loaded set of known courses
(`warehouse.get_set_of_all_courses()`) is passed in as an explicit
`List String` parameter, matching the record-set injection described in the
specification's design notes.
-/

namespace StemCenter

/-! ## Character and character-list utilities -/

/-- Whitespace characters recognized by Python `str.split()` / `str.strip()`
(ASCII subset; the inputs under study contain only plain spaces). -/
def isWsC (c : Char) : Bool :=
  c == ' ' || c == '\t' || c == '\n' || c == '\r' || c == '\x0b' || c == '\x0c'

/-- The character for a decimal digit `d < 10`. -/
def digitChar (d : Nat) : Char := Char.ofNat (48 + d)

/-- Numeric value of a decimal digit character. -/
def digitVal (c : Char) : Nat := c.toNat - 48

/-- Python `list o str.split()` grouping: split on whitespace runs, dropping
empty tokens.  `cur` accumulates the current token in reverse. -/
def splitWsAux (cur : List Char) : List Char → List (List Char)
  | [] => if cur.isEmpty then [] else [cur.reverse]
  | c :: rest =>
    if isWsC c then
      if cur.isEmpty then splitWsAux [] rest else cur.reverse :: splitWsAux [] rest
    else splitWsAux (c :: cur) rest

/-- Python `s.split()`. -/
def splitWsL (l : List Char) : List (List Char) := splitWsAux [] l

/-- Join tokens with single spaces (Python `' '.join(tokens)`). -/
def joinSpaceL : List (List Char) → List Char
  | [] => []
  | [t] => t
  | t :: ts => t ++ ' ' :: joinSpaceL ts

/-- Python `' '.join(s.split())`: collapse whitespace runs, trim the ends. -/
def normalizeSpacesL (l : List Char) : List Char := joinSpaceL (splitWsL l)

/-- Python `s.strip(' ')` (spaces only, both ends). -/
def stripSpacesL (l : List Char) : List Char :=
  ((l.dropWhile (· == ' ')).reverse.dropWhile (· == ' ')).reverse

/-- Python `s.strip()` (all whitespace, both ends). -/
def trimWsL (l : List Char) : List Char :=
  ((l.dropWhile isWsC).reverse.dropWhile isWsC).reverse

/-- Python `s.split(',')`: empty segments are kept (`''.split(',') == ['']`). -/
def splitOnCommaL : List Char → List (List Char)
  | [] => [[]]
  | c :: rest =>
    if c == ',' then [] :: splitOnCommaL rest
    else
      match splitOnCommaL rest with
      | t :: ts => (c :: t) :: ts
      | [] => [[c]]

/-- Does `l` start with `p`? -/
def startsWithL : List Char → List Char → Bool
  | _, [] => true
  | [], _ :: _ => false
  | c :: cs, p :: ps => c == p && startsWithL cs ps

/-- Python `sep in l` (substring containment). -/
def containsSubL (sep : List Char) : List Char → Bool
  | [] => sep.isEmpty
  | c :: rest => startsWithL (c :: rest) sep || containsSubL sep rest

/-- Python `l.partition(sep)`, keeping only the before/after parts; when `sep`
does not occur the whole input is the before part and the after part is empty,
exactly as in Python. -/
def partitionSubL (sep : List Char) : List Char → List Char × List Char
  | [] => ([], [])
  | c :: rest =>
    if startsWithL (c :: rest) sep then ([], (c :: rest).drop sep.length)
    else
      let p := partitionSubL sep rest
      (c :: p.1, p.2)

/-- Python `l.partition(' ')` kept as a before/after pair. -/
def partitionSpaceL : List Char → List Char × List Char
  | [] => ([], [])
  | c :: rest =>
    if c == ' ' then ([], rest)
    else
      let p := partitionSpaceL rest
      (c :: p.1, p.2)

/-- Number of occurrences of character `c` in `l` (Python `l.count(c)`). -/
def countCh (l : List Char) (c : Char) : Nat := (l.filter (· == c)).length

/-- Python `s.lower()` on a character list (ASCII). -/
def toLowerL (l : List Char) : List Char := l.map Char.toLower

/-- Python `s.upper()` on a character list (ASCII). -/
def toUpperL (l : List Char) : List Char := l.map Char.toUpper

/-- The last two characters of a list, if it has at least two. -/
def lastTwo (l : List Char) : Option (Char × Char) :=
  match l.reverse with
  | y :: x :: _ => some (x, y)
  | _ => none

/-- Python `s.endswith(d1 + d2)` for a two-character suffix. -/
def endsWithPair (l : List Char) (d1 d2 : Char) : Bool :=
  match lastTwo l with
  | some (c1, c2) => c1 == d1 && c2 == d2
  | none => false

/-! String-level wrappers. -/

def normalizeSpaces (s : String) : String := ⟨normalizeSpacesL s.data⟩

def stripSpaces (s : String) : String := ⟨stripSpacesL s.data⟩

def toLowerStr (s : String) : String := ⟨toLowerL s.data⟩

/-! ## Decimal numerals and Python `int()` -/

/-- Decimal digits of `n`, most significant first; `fuel` bounds the recursion
and any `fuel > n` is sufficient. -/
def natDigitsAux : Nat → Nat → List Char
  | 0, _ => []
  | fuel + 1, n =>
    if n < 10 then [digitChar n]
    else natDigitsAux fuel (n / 10) ++ [digitChar (n % 10)]

/-- Python `str(n)` for a natural number. -/
def natDigits (n : Nat) : List Char := natDigitsAux (n + 1) n

/-- `natDigits` packaged as a `String`. -/
def natStr (n : Nat) : String := ⟨natDigits n⟩

/-- Two decimal digits with a leading zero where needed (the zero padding the
source applies to hour/minute/second fields and to `str(yr)[-2:]`). -/
def pad2c (n : Nat) : List Char := [digitChar (n / 10), digitChar (n % 10)]

/-- `pad2c` packaged as a `String`. -/
def pad2s (n : Nat) : String := ⟨pad2c n⟩

/-- Digits (with CPython's single-underscore-between-digits rule) following a
leading digit whose value is already accumulated in `acc`. -/
def digitsUndGo (acc : Nat) : List Char → Option Nat
  | [] => some acc
  | c :: rest =>
    if c == '_' then
      match rest with
      | d :: ds => if d.isDigit then digitsUndGo (10 * acc + digitVal d) ds else none
      | [] => none
    else if c.isDigit then digitsUndGo (10 * acc + digitVal c) rest
    else none

/-- A nonempty all-digit numeral (underscores allowed between digits), as
accepted by CPython `int()` after sign and whitespace handling. -/
def digitsUnd : List Char → Option Nat
  | [] => none
  | c :: rest => if c.isDigit then digitsUndGo (digitVal c) rest else none

/-- The sign-and-digits part of CPython `int()`, applied after whitespace
stripping: an optional single `+`/`-` followed by digits. -/
def pyIntSigned : List Char → Option Int
  | [] => none
  | c :: rest =>
    if c == '-' then (digitsUnd rest).map (fun n => -(n : Int))
    else if c == '+' then (digitsUnd rest).map (fun n => (n : Int))
    else (digitsUnd (c :: rest)).map (fun n => (n : Int))

/-- Python `int(s)` on a character list: optional surrounding whitespace, an
optional single sign, then digits; `none` models the raised `ValueError`. -/
def pyIntOfChars (l : List Char) : Option Int :=
  pyIntSigned (trimWsL l)

/-- Python `int(s)` on a `String`. -/
def pyIntStr (s : String) : Option Int := pyIntOfChars s.data

/-- The numeric value accumulated over a digit list (specification device for
the `int()` round-trip proofs). -/
def valFold (acc : Nat) (l : List Char) : Nat :=
  l.foldl (fun a c => 10 * a + digitVal c) acc

/-! ## Errors

`InvalidInputError` / `ParsingError` instances are distinguished by the
content of their message; each constructor below records the data interpolated
into the corresponding message in the source. -/

inductive PErr where
  /-- `'{alias}' is invalid - cannot be recognized as one of {valid_names}`
  (from `AliasTable.lookup_by_alias`; the name list is abbreviated). -/
  | notRecognized (aliasStr : String) (validNames : List String)
  /-- `ordering must fall between 1 and {len(self.names)}`
  (from `AliasTable.lookup_by_ordering`). -/
  | orderingOutOfRange (tableSize : Nat)
  /-- `Dashed input must be separated by ' - ' (including spaces).`
  (from `parse_user_input`). -/
  | dashedNeedsSpacedSeparator
  /-- `Dashed strings must be of the form 'LHS - RHS' where LHS < RHS.`
  (from `parse_user_input` / `parse_dashed_string`). -/
  | dashedNotAscending
  /-- The uncaught `ValueError` Python's `list.index` raises when a mapped
  value is absent from `values_to_slice`. -/
  | valueNotInList
  /-- Wrapped quarter error from `parse_quarter` (`quarter name must
  correspond to ...`). -/
  | invalidQuarter (quarter : String) (withYear : Bool)
  /-- `Quarters on each side of dash must have exact same number of
  components` (from `stem_analytics.parse_quarters`; unreachable there). -/
  | quarterComponentMismatch
  /-- `subject '{subject}' is not on record.` (from `parse_course`). -/
  | subjectNotOnRecord (courseNorm : String) (subject : String)
  /-- `course '{course}' has no section '{section}' on record.`
  (from `parse_course`). -/
  | noSuchSection (courseNorm : String) (courseWithoutSection : String) (sect : String)
  /-- `subject '{subject}' has no course number '{number}' on record.`
  (from `parse_course`). -/
  | noSuchNumber (courseNorm : String) (subject : String) (number : String)
  /-- `course name requires a recognizable subject, ...` (from `parse_course`). -/
  | courseNotRecognized (courseNorm : String)
  /-- `time must be of format 'HH[:MM:SS] [am/pm]'.` (from
  `parse_time_of_day`; carries the stripped offending input). -/
  | invalidTime (t : String)
deriving DecidableEq, Repr

deriving instance DecidableEq for Except

/-! ## AliasTable

An `AliasTable` row is a canonical name together with its alias set; the
declared row order is significant (`lookup_by_alias` scans rows in order,
`lookup_by_ordering` indexes them).  Alias sets are modelled as lists used
only through membership. -/

/-- `self.names`: the canonical names in declared order. -/
def tableNames (t : List (String × List String)) : List String := t.map Prod.fst

/-- First row (in declared order) whose alias set contains `a`, as in
`AliasTable.lookup_by_alias`; `none` models the not-found case. -/
def lookup_by_alias (t : List (String × List String)) (a : String) : Option String :=
  match t with
  | [] => none
  | (name, aliases) :: rest =>
    if a ∈ aliases then some name else lookup_by_alias rest a

/-- The abbreviated name list used in the `lookup_by_alias` error message:
`names[:2] + ('...',) + names[-2:]` when there are more than four names. -/
def abbrevNames (names : List String) : List String :=
  if names.length > 4 then
    names.take 2 ++ ["..."] ++ names.drop (names.length - 2)
  else names

/-- `AliasTable.lookup_by_alias` with `raise_if_not_found=True`: the raised
`InvalidInputError` is the `error` case. -/
def lookup_by_alias_exc (t : List (String × List String)) (a : String) : Except PErr String :=
  match lookup_by_alias t a with
  | some name => .ok name
  | none => .error (.notRecognized a (abbrevNames (tableNames t)))

/-- The `ordering` argument of `lookup_by_ordering` (`Union[int, str]`). -/
inductive OrdKey where
  | int (i : Int)
  | str (s : String)
deriving DecidableEq, Repr

/-- Python `int(ordering)`: the identity on integers, `int()` parsing on
strings; `none` models the `TypeError`/`ValueError` branch. -/
def ordToInt : OrdKey → Option Int
  | .int i => some i
  | .str s => pyIntStr s

/-- Python list indexing `l[i]` including negative-index wrap-around;
`none` models the raised `IndexError`. -/
def pyListIndex (l : List String) (i : Int) : Option String :=
  if 0 ≤ i then l.get? i.toNat
  else if -(l.length : Int) ≤ i then l.get? ((l.length : Int) + i).toNat
  else none

/-- `AliasTable.lookup_by_ordering`, acting on the table's name sequence:
convert `ordering` with `int()`, subtract one, index `self.names` with Python
semantics; any failure returns `None` (`.ok none`) or raises
(`.error (.orderingOutOfRange N)`) according to `raise_if_not_found`. -/
def lookup_by_ordering (names : List String) (ord : OrdKey) (raiseIfNotFound : Bool) :
    Except PErr (Option String) :=
  match ordToInt ord with
  | none =>
    if raiseIfNotFound then .error (.orderingOutOfRange names.length) else .ok none
  | some i =>
    match pyListIndex names (i - 1) with
    | some name => .ok (some name)
    | none =>
      if raiseIfNotFound then .error (.orderingOutOfRange names.length) else .ok none

/-! ## The declared alias tables (from `input_validation.py`) -/

/-- `TIME_UNIT_VALUES.WEEKDAYS`. -/
def WEEKDAYS : List (String × List String) :=
  [ ("Monday",    ["m", "mo", "mon"]),
    ("Tuesday",   ["t", "tu", "tue", "tues"]),
    ("Wednesday", ["w", "we", "wed"]),
    ("Thursday",  ["r", "th", "thu", "thur", "thurs"]),
    ("Friday",    ["f", "fr", "fri"]),
    ("Saturday",  ["s", "sa", "sat"]),
    ("Sunday",    ["u", "su", "sun"]) ]

/-- The weekday canonical names, Monday through Sunday. -/
def WEEKDAY_NAMES : List String := tableNames WEEKDAYS

/-- `TIME_UNIT_VALUES.QUARTERS` (declared order Fall, Winter, Spring, Summer). -/
def QUARTERS : List (String × List String) :=
  [ ("Fall",   ["f", "fa", "fall"]),
    ("Winter", ["w", "wi", "win", "winter"]),
    ("Spring", ["s", "sp", "spr", "spring"]),
    ("Summer", ["u", "su", "sum", "summer"]) ]

/-- `TIME_UNIT_VALUES.YEARS`: one row per year 2000..2099 with the 4-digit and
2-digit forms (`str(yr)` and `str(yr)[-2:]`) as aliases. -/
def YEARS : List (String × List String) :=
  (List.range 100).map (fun k =>
    (natStr (2000 + k), [natStr (2000 + k), pad2s ((2000 + k) % 100)]))

/-- `TIME_UNIT_VALUES.QUARTERS_WITH_YEARS` canonical names: for each year
2000..2099 the quarters Winter, Spring, Summer, Fall — the canonical
"Term Year" ordering used to slice dashed quarter ranges. -/
def QUARTERS_WITH_YEARS_NAMES : List String :=
  (List.range 100).flatMap (fun k =>
    ["Winter", "Spring", "Summer", "Fall"].map (fun q => q ++ " " ++ natStr (2000 + k)))

/-- `CORE_SUBJECTS`. -/
def CORE_SUBJECTS : List (String × List String) :=
  [ ("Mathematics",      ["mat", "math", "mathematics"]),
    ("Physics",          ["phy", "phys", "physics"]),
    ("Biology",          ["bio", "biol", "biology"]),
    ("Chemistry",        ["che", "chem", "chemistry"]),
    ("Engineering",      ["eng", "engr", "engi", "engineering"]),
    ("Computer Science", ["cs", "com", "c s", "comp", "comp sci", "computer science"]) ]

/-- `OTHER_SUBJECTS`. -/
def OTHER_SUBJECTS : List (String × List String) :=
  [ ("Accounting",              ["acc", "actg", "accounting"]),
    ("Astronomy",               ["ast", "astr", "astro", "astronomy"]),
    ("Anthropology",            ["ant", "anth", "anthro", "anthropology"]),
    ("Business",                ["bus", "busi", "business"]),
    ("Economics",               ["eco", "econ", "economics"]),
    ("Non Credit Basic Skills", ["non", "ncbs", "non credit basic skills"]),
    ("Psychology",              ["psy", "psyc", "psych", "psychology"]),
    ("English",                 ["engl", "english"]),
    ("History",                 ["history", "hist"]) ]

/-- `ALL_SUBJECTS` = core rows followed by the other rows. -/
def ALL_SUBJECTS : List (String × List String) := CORE_SUBJECTS ++ OTHER_SUBJECTS

/-! ## Composite input parser (`parse_user_input`) -/

/-- The return shape of `parse_user_input`: a list of mapped values, or the
endpoint pair returned for a dashed string with empty `values_to_slice`. -/
inductive ParsedInput (α : Type) where
  | list (values : List α)
  | pair (left right : α)
deriving DecidableEq, Repr

/-- The separator `' - '` a dashed string must contain. -/
def dashSepL : List Char := [' ', '-', ' ']

/-- The left/right tokens of a dashed string:
`' '.join(user_input_.split()).partition(' - ')` where `user_input_` is the
already-normalized input. -/
def dashTokens (userInput : String) : String × String :=
  let p := partitionSubL dashSepL (normalizeSpacesL (normalizeSpacesL userInput.data))
  (⟨p.1⟩, ⟨p.2⟩)

/-- Left-to-right mapping of comma-delimited tokens, each stripped of
surrounding spaces (`[mapping_func(string.strip(' ')) for string in
user_input.split(',')]`): the first raised error propagates. -/
def mapTokens {α : Type} (mappingFunc : String → Except PErr α) :
    List (List Char) → Except PErr (List α)
  | [] => .ok []
  | t :: ts =>
    match mappingFunc ⟨stripSpacesL t⟩ with
    | .error e => .error e
    | .ok v =>
      match mapTokens mappingFunc ts with
      | .error e => .error e
      | .ok vs => .ok (v :: vs)

/-- Inclusive slice `values[li : ri + 1]`. -/
def sliceIncl {α : Type} (values : List α) (li ri : Nat) : List α :=
  (values.drop li).take (ri + 1 - li)

/-- Index of the first occurrence of `v` (Python `list.index`; `none` models
the raised `ValueError`). -/
def idxOf {α : Type} [DecidableEq α] (values : List α) (v : α) : Option Nat :=
  match values with
  | [] => none
  | x :: xs => if x = v then some 0 else (idxOf xs v).map (· + 1)

/-- `parse_user_input` on string input
(`stem_center_analytics/core/input_validation.py`, lines 378-401).  The input
is parsed as a comma-delimited string whenever `' - '` is absent; otherwise as
a dashed string.  The `count('-') == 1 and ' - ' not in user_input` branch of
the source is kept verbatim: its second conjunct is false whenever the branch
is reached, so the branch is unreachable. -/
def parse_user_input {α : Type} [DecidableEq α] (mappingFunc : String → Except PErr α)
    (valuesToSlice : List α) (userInput : String) : Except PErr (ParsedInput α) :=
  if ¬ containsSubL dashSepL userInput.data then
    match mapTokens mappingFunc (splitOnCommaL userInput.data) with
    | .error e => .error e
    | .ok vs => .ok (.list vs)
  else if countCh userInput.data '-' == 1 && !containsSubL dashSepL userInput.data then
    .error .dashedNeedsSpacedSeparator
  else
    let lr := dashTokens userInput
    match mappingFunc lr.1 with
    | .error e => .error e
    | .ok leftValue =>
      match mappingFunc lr.2 with
      | .error e => .error e
      | .ok rightValue =>
        if valuesToSlice.isEmpty then .ok (.pair leftValue rightValue)
        else
          match idxOf valuesToSlice leftValue with
          | none => .error .valueNotInList
          | some li =>
            match idxOf valuesToSlice rightValue with
            | none => .error .valueNotInList
            | some ri =>
              if li < ri then .ok (.list (sliceIncl valuesToSlice li ri))
              else .error .dashedNotAscending

/-- The sequence branch of `parse_user_input`:
`[mapping_func(' '.join(s.split())) for s in user_input]`. -/
def parse_user_input_seq {α : Type} (mappingFunc : String → Except PErr α)
    (userInput : List String) : Except PErr (List α) :=
  match userInput with
  | [] => .ok []
  | s :: rest =>
    match mappingFunc (normalizeSpaces s) with
    | .error e => .error e
    | .ok v =>
      match parse_user_input_seq mappingFunc rest with
      | .error e => .error e
      | .ok vs => .ok (v :: vs)

/-! ## Quarter parsing -/

/-- `parse_quarter`: lower-case, split on the first space into term and year
tokens, resolve the term through `QUARTERS` and (when `with_year`) the year
through `YEARS`, concatenating as `"Term Year"`; a failed lookup is wrapped
into the quarter-specific error. -/
def parse_quarter (withYear : Bool) (quarter : String) : Except PErr String :=
  let p := partitionSpaceL (toLowerL quarter.data)
  match lookup_by_alias QUARTERS ⟨p.1⟩ with
  | none => .error (.invalidQuarter quarter withYear)
  | some term =>
    if withYear then
      match lookup_by_alias YEARS ⟨p.2⟩ with
      | none => .error (.invalidQuarter quarter withYear)
      | some yr => .ok (term ++ " " ++ yr)
    else .ok term

/-- `parse_quarters` (string input): the composite parser with `parse_quarter`
as mapping function and the canonical quarter-with-year ordering as
`values_to_slice` (the wiring of `stem_analytics.parse_quarters` and of
`interface.filter_by_quarter`; for the dashed inputs of interest the two
composite-parser variants coincide).  The source's pre-check on dashed input
compares the left token's component count with itself and can never fail; it
is modelled verbatim. -/
def parse_quarters (quarters : String) : Except PErr (ParsedInput String) :=
  let lft := (partitionSubL dashSepL quarters.data).1
  if containsSubL dashSepL quarters.data ∧ (splitWsL lft).length ≠ (splitWsL lft).length then
    .error .quarterComponentMismatch
  else parse_user_input (parse_quarter true) QUARTERS_WITH_YEARS_NAMES quarters

/-! ## Course parsing (`parse_course`) -/

/-- Index of the first decimal digit, if any. -/
def firstDigitPos : List Char → Option Nat
  | [] => none
  | c :: rest => if c.isDigit then some 0 else (firstDigitPos rest).map (· + 1)

/-- `re.sub('(\. f|\.| f)?$', '', subject)`: remove one trailing `'. f'`,
`'.'`, or `' f'` (alternatives tried in that order at the leftmost matching
position, which is the effect of the source regex). -/
def stripSubjectEndL (l : List Char) : List Char :=
  match l.reverse with
  | 'f' :: ' ' :: '.' :: rest => rest.reverse
  | '.' :: rest => rest.reverse
  | 'f' :: ' ' :: rest => rest.reverse
  | _ => l

/-- Up to two leading zeros removed (`^0{,2}` is `{0,2}`, despite the
source comment saying three). -/
def dropLeadingZeros2 : List Char → List Char
  | '0' :: '0' :: rest => rest
  | '0' :: rest => rest
  | l => l

/-- `re.sub('^0{,2}|(\.)?$', '', number)`: up to two leading zeros and one
trailing `'.'` removed.  The single corner case where the scan cannot reach
the trailing dot is the one-character input `'.'` (the first alternative's
empty match at position 0 forces the scan past it), which is returned
unchanged; in `parse_course` the number component always starts with a digit,
so that case never arises there. -/
def stripNumberL (l : List Char) : List Char :=
  if l = ['.'] then l
  else
    let t := dropLeadingZeros2 l
    match t.reverse with
    | '.' :: rest => rest.reverse
    | _ => t

/-- `re.sub('^0|o', '', section)`: one leading `'0'` and every lowercase
`'o'` removed (the regex substitutes all matches, and `'o'` matches at any
position). -/
def stripSectionL (l : List Char) : List Char :=
  match l with
  | '0' :: rest => rest.filter (fun c => !(c == 'o'))
  | _ => l.filter (fun c => !(c == 'o'))

/-- Segmentation step of `parse_course`: normalize spaces and lower-case; if
no digit occurs the whole original input (stripped of spaces, original
casing) is the subject; otherwise the part before the first digit is the
subject and the upper-cased remainder splits at the first space into number
and section. -/
def course_components (courseName : String) : String × String × String :=
  let cn := toLowerL (normalizeSpacesL courseName.data)
  match firstDigitPos cn with
  | none => (⟨stripSpacesL courseName.data⟩, "", "")
  | some p =>
    let subject : String := ⟨stripSpacesL (cn.take p)⟩
    let q := partitionSpaceL (toUpperL (cn.drop p))
    (subject, ⟨q.1⟩, ⟨q.2⟩)

/-- The anomaly-stripped subject component of a course string. -/
def course_subject (courseName : String) : String :=
  ⟨stripSubjectEndL (course_components courseName).1.data⟩

/-- The anomaly-stripped number component of a course string. -/
def course_number (courseName : String) : String :=
  ⟨stripNumberL (course_components courseName).2.1.data⟩

/-- The anomaly-stripped section component of a course string. -/
def course_section (courseName : String) : String :=
  ⟨stripSectionL (course_components courseName).2.2.data⟩

/-- `' '.join([subject, number, section]).strip(' ')`. -/
def join_course (subject number sect : String) : String :=
  stripSpaces (subject ++ " " ++ number ++ " " ++ sect)

/-- `parse_course(course_name, check_records)` with the externally loaded set
of known course strings passed in as `records`.  With `check_records` false
the resolved subject is joined with number and section and returned with no
record validation; with it true the three-tier record check of the source is
performed, producing the differentiated errors. -/
def parse_course (records : List String) (checkRecords : Bool) (courseName : String) :
    Except PErr String :=
  let subject := course_subject courseName
  let number := course_number courseName
  let sect := course_section courseName
  if !checkRecords then
    match lookup_by_alias_exc ALL_SUBJECTS subject with
    | .error e => .error e
    | .ok subj => .ok (join_course subj number sect)
  else
    let courseNorm := toLowerStr (normalizeSpaces courseName)
    match lookup_by_alias ALL_SUBJECTS subject with
    | none => .error (.subjectNotOnRecord courseNorm subject)
    | some subj =>
      if subj ∈ records then
        let fullCourseName := join_course subj number sect
        if fullCourseName ∈ records then .ok fullCourseName
        else
          let withoutSection := stripSpaces (subj ++ " " ++ number)
          if withoutSection ∈ records then
            .error (.noSuchSection courseNorm withoutSection sect)
          else if subj ∈ records then
            .error (.noSuchNumber courseNorm subj number)
          else .error (.courseNotRecognized courseNorm)
      else .error (.subjectNotOnRecord courseNorm subj)

/-! ## Time-of-day parsing (`parse_time_of_day` / `parse_time`) -/

/-- `str(time).lower().replace(' ', '')`. -/
def stripTimeL (l : List Char) : List Char :=
  (l.map Char.toLower).filter (fun c => !(c == ' '))

/-- Whether a character list starts with a decimal digit. -/
def headIsDigit : List Char → Bool
  | [] => false
  | c :: _ => c.isDigit

/-- Python `str(h)` for `h < 100`: one digit below ten, two digits otherwise
(the plain numerals appearing in time-of-day strings). -/
def hourChars (h : Nat) : List Char :=
  if h < 10 then [digitChar h] else pad2c h

/-- One or two decimal digits consumed greedily, as `strptime`'s numeric
directives do; returns the value and the remaining input. -/
def parse2Digits : List Char → Option (Nat × List Char)
  | [] => none
  | c1 :: rest =>
    if c1.isDigit then
      match rest with
      | c2 :: rest2 =>
        if c2.isDigit then some (10 * digitVal c1 + digitVal c2, rest2)
        else some (digitVal c1, rest)
      | [] => some (digitVal c1, [])
    else none

/-- The `%H` (0..23) or `%I` (1..12) hour directive. -/
def parseHourD (is12 : Bool) (l : List Char) : Option (Nat × List Char) :=
  match parse2Digits l with
  | none => none
  | some (h, rest) =>
    if is12 then (if 1 ≤ h ∧ h ≤ 12 then some (h, rest) else none)
    else (if h ≤ 23 then some (h, rest) else none)

/-- The `%M`/`%S` directive.  `strptime` itself accepts seconds up to 61, but
the subsequent `datetime` construction in the source rejects 60 and 61, so the
composite behaviour is a 0..59 range. -/
def parseMSD (l : List Char) : Option (Nat × List Char) :=
  match parse2Digits l with
  | none => none
  | some (v, rest) => if v ≤ 59 then some (v, rest) else none

/-- A literal `':'` in the inferred format. -/
def expectColon : List Char → Option (List Char)
  | c :: rest => if c == ':' then some rest else none
  | [] => none

/-- End of input with no `%p` directive (`strptime` is exact: leftover input
is an error). -/
def finishNoSuffix (h m s : Nat) : List Char → Option (Nat × Nat × Nat)
  | [] => some (h, m, s)
  | _ => none

/-- The trailing `%p` directive followed by end of input, with the 12-hour
conversion: `am` maps hour 12 to 0, `pm` maps hours 1..11 up by twelve and
keeps 12 (`h % 12` and `h % 12 + 12` for `h` in 1..12). -/
def finishSuffix (h m s : Nat) : List Char → Option (Nat × Nat × Nat)
  | 'a' :: 'm' :: [] => some (h % 12, m, s)
  | 'p' :: 'm' :: [] => some (h % 12 + 12, m, s)
  | _ => none

/-- The format tail after the hour directive: `':%M'` when the input has one
colon, `':%M:%S'` when it has two or more, nothing otherwise; then `%p` iff
the input ended with am/pm. -/
def parseAfterHour (is12 : Bool) (colons : Nat) (h : Nat) (r : List Char) :
    Option (Nat × Nat × Nat) :=
  if colons == 0 then
    (if is12 then finishSuffix h 0 0 r else finishNoSuffix h 0 0 r)
  else
    match expectColon r with
    | none => none
    | some r1 =>
      match parseMSD r1 with
      | none => none
      | some (m, r2) =>
        if colons == 1 then
          (if is12 then finishSuffix h m 0 r2 else finishNoSuffix h m 0 r2)
        else
          match expectColon r2 with
          | none => none
          | some r3 =>
            match parseMSD r3 with
            | none => none
            | some (s, r4) =>
              if is12 then finishSuffix h m s r4 else finishNoSuffix h m s r4

/-- `datetime.strptime(time_string, inferred_format)` for the formats the
source can infer (`%H`/`%I`, optional `:%M` / `:%M:%S`, optional `%p`),
returning the (hour, minute, second) triple. -/
def strptimeTime (is12 : Bool) (colons : Nat) (l : List Char) :
    Option (Nat × Nat × Nat) :=
  match parseHourD is12 l with
  | none => none
  | some (h, r) => parseAfterHour is12 colons h r

/-- `parse_time_of_day`: lower-case and drop spaces, detect a trailing
`am`/`pm`, infer the format from the number of colons, run `strptime`, and
zero-pad the resulting fields into `'HH:MM:SS'`. -/
def parse_time_of_day (time : String) : Except PErr String :=
  let ts := stripTimeL time.data
  let is12 := endsWithPair ts 'a' 'm' || endsWithPair ts 'p' 'm'
  let colons := countCh ts ':'
  match strptimeTime is12 colons ts with
  | some (h, m, s) => .ok (pad2s h ++ ":" ++ pad2s m ++ ":" ++ pad2s s)
  | none => .error (.invalidTime ⟨trimWsL time.data⟩)

/-- A mapping function that accepts every token unchanged (used to observe
exactly which token strings the composite parser hands to its mapping
function). -/
def okStr : String → Except PErr String := fun s => .ok s

/-! # Supporting lemmas -/

/-- Facts about decimal digit characters used in the `int()` round-trip
arguments. -/
theorem digitChar_facts : ∀ d, d < 10 →
    ((digitChar d == '_') = false) ∧ ((digitChar d == '-') = false) ∧
    ((digitChar d == '+') = false) ∧ ((digitChar d).isDigit = true) ∧
    (digitVal (digitChar d) = d) ∧ (isWsC (digitChar d) = false) := by
  decide

/-- Every character emitted by `natDigitsAux` is a digit character. -/
theorem natDigitsAux_chars : ∀ fuel n, n < fuel →
    ∀ c ∈ natDigitsAux fuel n, ∃ d, d < 10 ∧ c = digitChar d := by
  intro fuel
  induction fuel with
  | zero => intro n h; omega
  | succ fuel ih =>
    intro n h c hc
    by_cases h10 : n < 10
    · simp [natDigitsAux, h10] at hc
      exact ⟨n, h10, hc⟩
    · simp [natDigitsAux, h10] at hc
      rcases hc with hc | hc
      · exact ih (n / 10) (by omega) c hc
      · exact ⟨n % 10, by omega, hc⟩

/-- `natDigitsAux` never returns the empty list when given positive fuel. -/
theorem natDigitsAux_ne_nil : ∀ fuel n, 0 < fuel → natDigitsAux fuel n ≠ [] := by
  intro fuel n h
  cases fuel with
  | zero => omega
  | succ fuel =>
    by_cases h10 : n < 10 <;> simp [natDigitsAux, h10]

/-- `dropWhile` is the identity on lists without whitespace. -/
theorem dropWhile_ws_eq_self (l : List Char) (h : ∀ c ∈ l, isWsC c = false) :
    l.dropWhile isWsC = l := by
  cases l with
  | nil => rfl
  | cons c cs => simp [List.dropWhile_cons, h c (by simp)]

/-- `strip()` is the identity on lists without whitespace. -/
theorem trimWsL_eq_self (l : List Char) (h : ∀ c ∈ l, isWsC c = false) :
    trimWsL l = l := by
  unfold trimWsL
  rw [dropWhile_ws_eq_self l h, dropWhile_ws_eq_self l.reverse (by
    intro c hc
    exact h c (List.mem_reverse.mp hc)), List.reverse_reverse]

theorem valFold_cons (acc : Nat) (c : Char) (cs : List Char) :
    valFold acc (c :: cs) = valFold (10 * acc + digitVal c) cs := by
  simp [valFold, List.foldl_cons]

/-- `digitsUndGo` on an all-digit list computes the folded value. -/
theorem digitsUndGo_digits : ∀ (l : List Char) (acc : Nat),
    (∀ c ∈ l, ∃ d, d < 10 ∧ c = digitChar d) →
    digitsUndGo acc l = some (valFold acc l) := by
  intro l
  induction l with
  | nil => intro acc _; rfl
  | cons c cs ih =>
    intro acc h
    obtain ⟨d, hd, rfl⟩ := h c (by simp)
    obtain ⟨hu, _, _, hdig, hval, _⟩ := digitChar_facts d hd
    rw [digitsUndGo.eq_def]
    simp only [hu, Bool.false_eq_true, if_false, hdig, if_true, hval]
    rw [valFold_cons, hval]
    exact ih _ (fun x hx => h x (by simp [hx]))

/-- `digitsUnd` on a nonempty all-digit list computes the folded value. -/
theorem digitsUnd_digits (c : Char) (cs : List Char)
    (h : ∀ x ∈ c :: cs, ∃ d, d < 10 ∧ x = digitChar d) :
    digitsUnd (c :: cs) = some (valFold 0 (c :: cs)) := by
  obtain ⟨d, hd, hc⟩ := h c (by simp)
  obtain ⟨_, _, _, hdig, hval, _⟩ := digitChar_facts d hd
  rw [digitsUnd.eq_def, hc]
  simp only [hdig, if_true]
  rw [hval, valFold_cons, hval]
  have h0 : (10 : Nat) * 0 + d = d := by omega
  rw [h0]
  exact digitsUndGo_digits cs d (fun x hx => h x (by simp [hx]))

/-- The folded value of `natDigitsAux fuel n` shifts the accumulator by the
digit count and adds `n`. -/
theorem valFold_natDigitsAux : ∀ fuel n acc, n < fuel →
    valFold acc (natDigitsAux fuel n) =
      acc * 10 ^ (natDigitsAux fuel n).length + n := by
  intro fuel
  induction fuel with
  | zero => intro n acc h; omega
  | succ fuel ih =>
    intro n acc h
    by_cases h10 : n < 10
    · obtain ⟨_, _, _, _, hval, _⟩ := digitChar_facts n h10
      simp [natDigitsAux, h10, valFold_cons, hval, valFold]
      ring
    · have hlt : n / 10 < fuel := by
        have h1 : n / 10 < n := Nat.div_lt_self (by omega) (by omega)
        omega
      simp only [natDigitsAux, h10, if_false]
      rw [valFold, List.foldl_append]
      have h2 := ih (n / 10) acc hlt
      rw [valFold] at h2
      rw [h2]
      obtain ⟨_, _, _, _, hval, _⟩ := digitChar_facts (n % 10) (by omega)
      simp only [List.foldl_cons, List.foldl_nil, hval, List.length_append,
        List.length_cons, List.length_nil, Nat.pow_succ]
      have hm : 10 * (n / 10) + n % 10 = n := Nat.div_add_mod n 10
      calc 10 * (acc * 10 ^ (natDigitsAux fuel (n / 10)).length + n / 10) + n % 10
          = acc * (10 ^ (natDigitsAux fuel (n / 10)).length * 10) +
              (10 * (n / 10) + n % 10) := by ring
        _ = acc * (10 ^ ((natDigitsAux fuel (n / 10)).length + 0) * 10) + n := by
              rw [hm]; ring_nf

/-- Python `int(str(n))` round-trips for every natural number `n`. -/
theorem pyIntStr_natStr (n : Nat) : pyIntStr (natStr n) = some (n : Int) := by
  have hchars := natDigitsAux_chars (n + 1) n (by omega)
  have hne := natDigitsAux_ne_nil (n + 1) n (by omega)
  obtain ⟨c, cs, hcc⟩ : ∃ c cs, natDigitsAux (n + 1) n = c :: cs := by
    cases hl : natDigitsAux (n + 1) n with
    | nil => exact absurd hl hne
    | cons c cs => exact ⟨c, cs, rfl⟩
  have hchars9 : ∀ x ∈ c :: cs, ∃ d, d < 10 ∧ x = digitChar d := by
    rw [← hcc]; exact hchars
  have htrim : trimWsL (c :: cs) = c :: cs := by
    apply trimWsL_eq_self
    intro x hx
    obtain ⟨d, hd, hxd⟩ := hchars9 x hx
    rw [hxd]
    exact (digitChar_facts d hd).2.2.2.2.2
  obtain ⟨d, hd, hc⟩ := hchars9 c (by simp)
  obtain ⟨_, hm, hp, _, _, _⟩ := digitChar_facts d hd
  have hval := valFold_natDigitsAux (n + 1) n 0 (by omega)
  rw [hcc] at hval
  have hval0 : valFold 0 (c :: cs) = n := by rw [hval]; ring_nf
  show pyIntOfChars (natDigitsAux (n + 1) n) = some (n : Int)
  rw [hcc]
  show pyIntSigned (trimWsL (c :: cs)) = some (n : Int)
  rw [htrim, pyIntSigned.eq_def]
  simp only [hc, hm, hp, Bool.false_eq_true, if_false]
  rw [← hc, digitsUnd_digits c cs hchars9, hval0]
  rfl

/-- Facts about digit characters needed for time-string reasoning. -/
theorem digitTimeFacts : ∀ d, d < 10 →
    (Char.toLower (digitChar d) = digitChar d) ∧ ((digitChar d == ' ') = false) ∧
    ((digitChar d == ':') = false) ∧ ((digitChar d == 'a') = false) ∧
    ((digitChar d == 'p') = false) ∧ ((digitChar d == 'm') = false) ∧
    ((digitChar d).isDigit = true) ∧ (digitVal (digitChar d) = d) := by
  decide

/-- Every character of `hourChars h` (for `h < 100`) is a digit character. -/
theorem hourChars_mem (h : Nat) (hh : h < 100) :
    ∀ c ∈ hourChars h, ∃ d, d < 10 ∧ c = digitChar d := by
  intro c hc
  by_cases h10 : h < 10
  · simp [hourChars, h10] at hc
    exact ⟨h, h10, hc⟩
  · simp [hourChars, h10, pad2c] at hc
    rcases hc with hc | hc
    · exact ⟨h / 10, by omega, hc⟩
    · exact ⟨h % 10, by omega, hc⟩

/-- Every character of `pad2c m` (for `m < 100`) is a digit character. -/
theorem pad2c_mem (m : Nat) (hm : m < 100) :
    ∀ c ∈ pad2c m, ∃ d, d < 10 ∧ c = digitChar d := by
  intro c hc
  simp [pad2c] at hc
  rcases hc with hc | hc
  · exact ⟨m / 10, by omega, hc⟩
  · exact ⟨m % 10, by omega, hc⟩

/-- `lower().replace(' ', '')` is the identity on lists whose characters are
already lower-case non-spaces. -/
theorem stripTime_id (l : List Char)
    (h : ∀ c ∈ l, Char.toLower c = c ∧ (c == ' ') = false) : stripTimeL l = l := by
  induction l with
  | nil => rfl
  | cons c cs ih =>
    obtain ⟨h1, h2⟩ := h c (by simp)
    have ih2 := ih (fun x hx => h x (by simp [hx]))
    simp only [stripTimeL, List.map_cons, h1, List.filter_cons, h2] at ih2 ⊢
    simp only [Bool.not_false, if_true]
    rw [show ((List.map Char.toLower cs).filter (fun c => !(c == ' '))) = cs from ih2]

/-- Digit-only lists contain no colon. -/
theorem countCh_digits (l : List Char)
    (h : ∀ c ∈ l, ∃ d, d < 10 ∧ c = digitChar d) : countCh l ':' = 0 := by
  induction l with
  | nil => rfl
  | cons c cs ih =>
    obtain ⟨d, hd, rfl⟩ := h c (by simp)
    obtain ⟨_, _, hc, _⟩ := digitTimeFacts d hd
    simp only [countCh, List.filter_cons, hc] at ih ⊢
    simp only [Bool.false_eq_true, if_false]
    exact ih (fun x hx => h x (by simp [hx]))

theorem countCh_append (l1 l2 : List Char) (c : Char) :
    countCh (l1 ++ l2) c = countCh l1 c + countCh l2 c := by
  simp [countCh, List.filter_append]

theorem countCh_cons (c0 : Char) (l : List Char) (c : Char) :
    countCh (c0 :: l) c = (if c0 == c then 1 else 0) + countCh l c := by
  by_cases h : (c0 == c) = true
  · simp [countCh, List.filter_cons, h]
    omega
  · simp [countCh, List.filter_cons, h]

/-- `parse2Digits` consumes a two-digit numeral. -/
theorem parse2Digits_pad2c (x : Nat) (rest : List Char) (hx : x < 100) :
    parse2Digits (pad2c x ++ rest) = some (x, rest) := by
  obtain ⟨_, _, _, _, _, _, hd1, hv1⟩ := digitTimeFacts (x / 10) (by omega)
  obtain ⟨_, _, _, _, _, _, hd2, hv2⟩ := digitTimeFacts (x % 10) (by omega)
  show parse2Digits (digitChar (x / 10) :: digitChar (x % 10) :: rest) = some (x, rest)
  rw [parse2Digits.eq_def]
  simp only [hd1, hd2, if_true, hv1, hv2]
  rw [Nat.div_add_mod]

/-- `parse2Digits` consumes a plain numeral below 100 when no digit follows. -/
theorem parse2Digits_hour (x : Nat) (rest : List Char) (hx : x < 100)
    (hrest : headIsDigit rest = false) :
    parse2Digits (hourChars x ++ rest) = some (x, rest) := by
  by_cases h10 : x < 10
  · obtain ⟨_, _, _, _, _, _, hd, hv⟩ := digitTimeFacts x h10
    have hform : hourChars x = [digitChar x] := by simp [hourChars, h10]
    rw [hform]
    cases rest with
    | nil =>
      rw [List.append_nil, parse2Digits.eq_def]
      simp [hd, hv]
    | cons c0 r0 =>
      have hc0 : c0.isDigit = false := hrest
      rw [parse2Digits.eq_def]
      simp [hd, hv, hc0]
  · have hform : hourChars x = pad2c x := by simp [hourChars, h10]
    rw [hform]
    exact parse2Digits_pad2c x rest hx

/-- `strptime` with inferred format `%H` on a bare hour numeral. -/
theorem strptime_h (h : Nat) (hh : h < 24) :
    strptimeTime false 0 (hourChars h) = some (h, 0, 0) := by
  have hp := parse2Digits_hour h [] (by omega) rfl
  rw [List.append_nil] at hp
  have h23 : h ≤ 23 := by omega
  simp [strptimeTime, parseHourD, hp, h23, parseAfterHour, finishNoSuffix]

/-- `strptime` with inferred format `%H:%M`. -/
theorem strptime_hm (h m : Nat) (hh : h < 24) (hm : m < 60) :
    strptimeTime false 1 (hourChars h ++ ':' :: pad2c m) = some (h, m, 0) := by
  have hcolon : headIsDigit (':' :: pad2c m) = false := by
    show (':').isDigit = false
    decide
  have hp := parse2Digits_hour h (':' :: pad2c m) (by omega) hcolon
  have hpm := parse2Digits_pad2c m [] (by omega)
  rw [List.append_nil] at hpm
  have h23 : h ≤ 23 := by omega
  have h59 : m ≤ 59 := by omega
  simp [strptimeTime, parseHourD, hp, h23, parseAfterHour, expectColon,
    parseMSD, hpm, h59, finishNoSuffix]

/-- `strptime` with inferred format `%H:%M:%S`. -/
theorem strptime_hms (h m s : Nat) (hh : h < 24) (hm : m < 60) (hs : s < 60) :
    strptimeTime false 2 (hourChars h ++ ':' :: (pad2c m ++ ':' :: pad2c s)) =
      some (h, m, s) := by
  have hcolon : headIsDigit (':' :: (pad2c m ++ ':' :: pad2c s)) = false := by
    show (':').isDigit = false
    decide
  have hp := parse2Digits_hour h (':' :: (pad2c m ++ ':' :: pad2c s)) (by omega) hcolon
  have hpm := parse2Digits_pad2c m (':' :: pad2c s) (by omega)
  have hps := parse2Digits_pad2c s [] (by omega)
  rw [List.append_nil] at hps
  have h23 : h ≤ 23 := by omega
  have hm59 : m ≤ 59 := by omega
  have hs59 : s ≤ 59 := by omega
  simp [strptimeTime, parseHourD, hp, h23, parseAfterHour, expectColon,
    parseMSD, hpm, hps, hm59, hs59, finishNoSuffix]

/-- `strptime` with inferred format `%I%p`. -/
theorem strptime_12h (h : Nat) (suffix : List Char) (h1 : 1 ≤ h) (h12 : h ≤ 12)
    (hsuf : headIsDigit suffix = false) :
    strptimeTime true 0 (hourChars h ++ suffix) = finishSuffix h 0 0 suffix := by
  have hp := parse2Digits_hour h suffix (by omega) hsuf
  simp [strptimeTime, parseHourD, hp, h1, h12, parseAfterHour]

/-- Evaluation rule for `parse_time_of_day` when the inferred `strptime` run
succeeds. -/
theorem parse_time_of_day_ok (t : String) (hms : Nat × Nat × Nat)
    (hrun : strptimeTime
        (endsWithPair (stripTimeL t.data) 'a' 'm' || endsWithPair (stripTimeL t.data) 'p' 'm')
        (countCh (stripTimeL t.data) ':') (stripTimeL t.data) = some hms) :
    parse_time_of_day t = .ok (pad2s hms.1 ++ ":" ++ pad2s hms.2.1 ++ ":" ++ pad2s hms.2.2) := by
  obtain ⟨a, b, c⟩ := hms
  unfold parse_time_of_day
  simp only [hrun]

theorem endsWithPair_append (l : List Char) (x y d1 d2 : Char) :
    endsWithPair (l ++ [x, y]) d1 d2 = ((x == d1) && (y == d2)) := by
  simp [endsWithPair, lastTwo, List.reverse_append]

/-- Shape `H` (24-hour, minutes and seconds default to zero). -/
theorem parseTime_h (h : Nat) (hh : h < 24) :
    parse_time_of_day ⟨hourChars h⟩ = .ok (pad2s h ++ ":" ++ pad2s 0 ++ ":" ++ pad2s 0) := by
  have hmem : ∀ c ∈ hourChars h, Char.toLower c = c ∧ (c == ' ') = false := by
    intro c hc
    obtain ⟨d, hd, rfl⟩ := hourChars_mem h (by omega) c hc
    exact ⟨(digitTimeFacts d hd).1, (digitTimeFacts d hd).2.1⟩
  have hstrip := stripTime_id _ hmem
  have hcnt : countCh (hourChars h) ':' = 0 := countCh_digits _ (hourChars_mem h (by omega))
  have his1 : endsWithPair (hourChars h) 'a' 'm' = false := by
    by_cases h10 : h < 10
    · simp [hourChars, h10, endsWithPair, lastTwo]
    · obtain ⟨_, _, _, ha, _, _, _, _⟩ := digitTimeFacts (h / 10) (by omega)
      simp [hourChars, h10, pad2c, endsWithPair, lastTwo, ha]
  have his2 : endsWithPair (hourChars h) 'p' 'm' = false := by
    by_cases h10 : h < 10
    · simp [hourChars, h10, endsWithPair, lastTwo]
    · obtain ⟨_, _, _, _, hp, _, _, _⟩ := digitTimeFacts (h / 10) (by omega)
      simp [hourChars, h10, pad2c, endsWithPair, lastTwo, hp]
  refine parse_time_of_day_ok _ (h, 0, 0) ?_
  show strptimeTime
      (endsWithPair (stripTimeL (hourChars h)) 'a' 'm' ||
        endsWithPair (stripTimeL (hourChars h)) 'p' 'm')
      (countCh (stripTimeL (hourChars h)) ':') (stripTimeL (hourChars h)) = some (h, 0, 0)
  rw [hstrip, his1, his2, Bool.or_false, hcnt]
  exact strptime_h h hh

/-- Shape `H:MM` (24-hour, seconds default to zero). -/
theorem parseTime_hm (h m : Nat) (hh : h < 24) (hm : m < 60) :
    parse_time_of_day ⟨hourChars h ++ ':' :: pad2c m⟩ =
      .ok (pad2s h ++ ":" ++ pad2s m ++ ":" ++ pad2s 0) := by
  have hmem : ∀ c ∈ hourChars h ++ ':' :: pad2c m,
      Char.toLower c = c ∧ (c == ' ') = false := by
    intro c hc
    rcases List.mem_append.mp hc with hc | hc
    · obtain ⟨d, hd, rfl⟩ := hourChars_mem h (by omega) c hc
      exact ⟨(digitTimeFacts d hd).1, (digitTimeFacts d hd).2.1⟩
    · rcases List.mem_cons.mp hc with rfl | hc
      · exact ⟨by decide, by decide⟩
      · obtain ⟨d, hd, rfl⟩ := pad2c_mem m (by omega) c hc
        exact ⟨(digitTimeFacts d hd).1, (digitTimeFacts d hd).2.1⟩
  have hstrip := stripTime_id _ hmem
  have heq : hourChars h ++ ':' :: pad2c m =
      (hourChars h ++ [':']) ++ [digitChar (m / 10), digitChar (m % 10)] := by
    simp [pad2c]
  have his1 : endsWithPair (hourChars h ++ ':' :: pad2c m) 'a' 'm' = false := by
    obtain ⟨_, _, _, ha, _, _, _, _⟩ := digitTimeFacts (m / 10) (by omega)
    rw [heq, endsWithPair_append, ha]
    rfl
  have his2 : endsWithPair (hourChars h ++ ':' :: pad2c m) 'p' 'm' = false := by
    obtain ⟨_, _, _, _, hp, _, _, _⟩ := digitTimeFacts (m / 10) (by omega)
    rw [heq, endsWithPair_append, hp]
    rfl
  have hcnt : countCh (hourChars h ++ ':' :: pad2c m) ':' = 1 := by
    rw [countCh_append, countCh_digits _ (hourChars_mem h (by omega)), countCh_cons,
      countCh_digits _ (pad2c_mem m (by omega))]
    rfl
  refine parse_time_of_day_ok _ (h, m, 0) ?_
  show strptimeTime
      (endsWithPair (stripTimeL (hourChars h ++ ':' :: pad2c m)) 'a' 'm' ||
        endsWithPair (stripTimeL (hourChars h ++ ':' :: pad2c m)) 'p' 'm')
      (countCh (stripTimeL (hourChars h ++ ':' :: pad2c m)) ':')
      (stripTimeL (hourChars h ++ ':' :: pad2c m)) = some (h, m, 0)
  rw [hstrip, his1, his2, Bool.or_false, hcnt]
  exact strptime_hm h m hh hm

/-- Shape `H:MM:SS` (24-hour). -/
theorem parseTime_hms (h m s : Nat) (hh : h < 24) (hm : m < 60) (hs : s < 60) :
    parse_time_of_day ⟨hourChars h ++ ':' :: (pad2c m ++ ':' :: pad2c s)⟩ =
      .ok (pad2s h ++ ":" ++ pad2s m ++ ":" ++ pad2s s) := by
  have hmem : ∀ c ∈ hourChars h ++ ':' :: (pad2c m ++ ':' :: pad2c s),
      Char.toLower c = c ∧ (c == ' ') = false := by
    intro c hc
    rcases List.mem_append.mp hc with hc | hc
    · obtain ⟨d, hd, rfl⟩ := hourChars_mem h (by omega) c hc
      exact ⟨(digitTimeFacts d hd).1, (digitTimeFacts d hd).2.1⟩
    · rcases List.mem_cons.mp hc with rfl | hc
      · exact ⟨by decide, by decide⟩
      · rcases List.mem_append.mp hc with hc | hc
        · obtain ⟨d, hd, rfl⟩ := pad2c_mem m (by omega) c hc
          exact ⟨(digitTimeFacts d hd).1, (digitTimeFacts d hd).2.1⟩
        · rcases List.mem_cons.mp hc with rfl | hc
          · exact ⟨by decide, by decide⟩
          · obtain ⟨d, hd, rfl⟩ := pad2c_mem s (by omega) c hc
            exact ⟨(digitTimeFacts d hd).1, (digitTimeFacts d hd).2.1⟩
  have hstrip := stripTime_id _ hmem
  have heq : hourChars h ++ ':' :: (pad2c m ++ ':' :: pad2c s) =
      ((hourChars h ++ [':']) ++ pad2c m ++ [':']) ++
        [digitChar (s / 10), digitChar (s % 10)] := by
    simp [pad2c]
  have his1 : endsWithPair (hourChars h ++ ':' :: (pad2c m ++ ':' :: pad2c s)) 'a' 'm' = false := by
    obtain ⟨_, _, _, ha, _, _, _, _⟩ := digitTimeFacts (s / 10) (by omega)
    rw [heq, endsWithPair_append, ha]
    rfl
  have his2 : endsWithPair (hourChars h ++ ':' :: (pad2c m ++ ':' :: pad2c s)) 'p' 'm' = false := by
    obtain ⟨_, _, _, _, hp, _, _, _⟩ := digitTimeFacts (s / 10) (by omega)
    rw [heq, endsWithPair_append, hp]
    rfl
  have hcnt : countCh (hourChars h ++ ':' :: (pad2c m ++ ':' :: pad2c s)) ':' = 2 := by
    rw [countCh_append, countCh_digits _ (hourChars_mem h (by omega)), countCh_cons,
      countCh_append, countCh_digits _ (pad2c_mem m (by omega)), countCh_cons,
      countCh_digits _ (pad2c_mem s (by omega))]
    rfl
  refine parse_time_of_day_ok _ (h, m, s) ?_
  show strptimeTime
      (endsWithPair (stripTimeL (hourChars h ++ ':' :: (pad2c m ++ ':' :: pad2c s))) 'a' 'm' ||
        endsWithPair (stripTimeL (hourChars h ++ ':' :: (pad2c m ++ ':' :: pad2c s))) 'p' 'm')
      (countCh (stripTimeL (hourChars h ++ ':' :: (pad2c m ++ ':' :: pad2c s))) ':')
      (stripTimeL (hourChars h ++ ':' :: (pad2c m ++ ':' :: pad2c s))) = some (h, m, s)
  rw [hstrip, his1, his2, Bool.or_false, hcnt]
  exact strptime_hms h m s hh hm hs

/-- Shape `H` with an `am`/`pm` suffix (12-hour). -/
theorem parseTime_ampm (h : Nat) (h1 : 1 ≤ h) (h12 : h ≤ 12) (pm : Bool) :
    parse_time_of_day ⟨hourChars h ++ [if pm then 'p' else 'a', 'm']⟩ =
      .ok (pad2s (if pm then h % 12 + 12 else h % 12) ++ ":" ++ pad2s 0 ++ ":" ++ pad2s 0) := by
  have hmem : ∀ c ∈ hourChars h ++ [if pm then 'p' else 'a', 'm'],
      Char.toLower c = c ∧ (c == ' ') = false := by
    intro c hc
    rcases List.mem_append.mp hc with hc | hc
    · obtain ⟨d, hd, rfl⟩ := hourChars_mem h (by omega) c hc
      exact ⟨(digitTimeFacts d hd).1, (digitTimeFacts d hd).2.1⟩
    · rcases List.mem_cons.mp hc with rfl | hc
      · cases pm
        · exact ⟨by decide, by decide⟩
        · exact ⟨by decide, by decide⟩
      · rcases List.mem_cons.mp hc with rfl | hc
        · exact ⟨by decide, by decide⟩
        · simp at hc
  have hstrip := stripTime_id _ hmem
  have hend1 : endsWithPair (hourChars h ++ [if pm then 'p' else 'a', 'm']) 'a' 'm' =
      ((if pm then 'p' else 'a') == 'a' && true) := by
    rw [endsWithPair_append]
    rfl
  have hend2 : endsWithPair (hourChars h ++ [if pm then 'p' else 'a', 'm']) 'p' 'm' =
      ((if pm then 'p' else 'a') == 'p' && true) := by
    rw [endsWithPair_append]
    rfl
  have hcnt : countCh (hourChars h ++ [if pm then 'p' else 'a', 'm']) ':' = 0 := by
    rw [countCh_append, countCh_digits _ (hourChars_mem h (by omega))]
    cases pm
    · rfl
    · rfl
  have hsuf : headIsDigit [if pm then 'p' else 'a', 'm'] = false := by
    cases pm
    · decide
    · decide
  have hrun := strptime_12h h [if pm then 'p' else 'a', 'm'] h1 h12 hsuf
  have hfin : finishSuffix h 0 0 [if pm then 'p' else 'a', 'm'] =
      some (if pm then h % 12 + 12 else h % 12, 0, 0) := by
    cases pm
    · rfl
    · rfl
  refine parse_time_of_day_ok _ (if pm then h % 12 + 12 else h % 12, 0, 0) ?_
  show strptimeTime
      (endsWithPair (stripTimeL (hourChars h ++ [if pm then 'p' else 'a', 'm'])) 'a' 'm' ||
        endsWithPair (stripTimeL (hourChars h ++ [if pm then 'p' else 'a', 'm'])) 'p' 'm')
      (countCh (stripTimeL (hourChars h ++ [if pm then 'p' else 'a', 'm'])) ':')
      (stripTimeL (hourChars h ++ [if pm then 'p' else 'a', 'm'])) =
      some (if pm then h % 12 + 12 else h % 12, 0, 0)
  rw [hstrip, hend1, hend2, hcnt]
  have his : (((if pm then 'p' else 'a') == 'a' && true) ||
      ((if pm then 'p' else 'a') == 'p' && true)) = true := by
    cases pm
    · rfl
    · rfl
  rw [his, hrun, hfin]

/-! # The claims -/

/-- Claim C1.  The claim says `lookup_by_ordering(0)` raises (or returns the
not-found sentinel); in the code `int(0) - 1 = -1` indexes `self.names` with
Python negative-index semantics and silently returns the LAST declared name
(and `-1` returns the second-to-last), contradicting the function's own error
message "ordering must fall between 1 and N".  On the WEEKDAYS table (N = 7):
position 0 yields "Sunday" under both `raise_if_not_found` settings and
position -1 yields "Saturday", while positions 8 and 3 behave as claimed. -/
theorem C1_lookup_by_ordering_position_zero :
    lookup_by_ordering WEEKDAY_NAMES (.int 0) true = .ok (some "Sunday") ∧
    lookup_by_ordering WEEKDAY_NAMES (.int 0) false = .ok (some "Sunday") ∧
    lookup_by_ordering WEEKDAY_NAMES (.int (-1)) true = .ok (some "Saturday") ∧
    lookup_by_ordering WEEKDAY_NAMES (.int 8) true = .error (.orderingOutOfRange 7) ∧
    lookup_by_ordering WEEKDAY_NAMES (.int 3) true = .ok (some "Wednesday") := by
  decide

/-- Claim C2.  The claim says an input with a single dash not surrounded by
spaces fails with the "' - ' separator" error and is never parsed as a
delimited string; in the code the delimited branch returns first whenever
`' - '` is absent, so the separator check is unreachable: `'M-W'` is passed
whole to the mapping function (a permissive mapping returns the one-token
parse `['M-W']`; the weekday alias lookup raises its own "cannot be
recognized" error instead), even though `'M-W'` satisfies the dead branch's
intended condition (one dash, no `' - '`). -/
theorem C2_single_dash_silently_delimited :
    parse_user_input okStr [] "M-W" = .ok (.list ["M-W"]) ∧
    parse_user_input (lookup_by_alias_exc WEEKDAYS) [] "M-W" =
      .error (.notRecognized "M-W" ["Monday", "Tuesday", "...", "Saturday", "Sunday"]) ∧
    countCh "M-W".data '-' = 1 ∧ containsSubL dashSepL "M-W".data = false := by
  decide

/-- Claim C3.  For every course string whose subject resolves through the
subject alias table to a name present in the records, `parse_course` with
`check_records` true returns the full candidate when it is on record,
otherwise raises the missing-section error when subject+number is on record,
and otherwise the missing-number error (the generic diagnostic is unreachable
because the subject is on record). -/
theorem C3_course_record_diagnostics (s : String) (records : List String) (subj : String)
    (hsub : lookup_by_alias ALL_SUBJECTS (course_subject s) = some subj)
    (hrec : subj ∈ records) :
    parse_course records true s =
      (if join_course subj (course_number s) (course_section s) ∈ records then
        .ok (join_course subj (course_number s) (course_section s))
      else if stripSpaces (subj ++ " " ++ course_number s) ∈ records then
        .error (.noSuchSection (toLowerStr (normalizeSpaces s))
          (stripSpaces (subj ++ " " ++ course_number s)) (course_section s))
      else .error (.noSuchNumber (toLowerStr (normalizeSpaces s)) subj (course_number s))) := by
  simp [parse_course, hsub, hrec]

/-- Witness for C3: with records `{"Mathematics", "Mathematics 1A"}` but not
`"Mathematics 1A 2"`, parsing `"math 1a 2"` raises the error referencing the
missing section `'2'` of course `'Mathematics 1A'`. -/
theorem C3_course_record_diagnostics_witness :
    parse_course ["Mathematics", "Mathematics 1A"] true "math 1a 2" =
      .error (.noSuchSection "math 1a 2" "Mathematics 1A" "2") := by
  have h := C3_course_record_diagnostics "math 1a 2" ["Mathematics", "Mathematics 1A"]
    "Mathematics" (by decide) (by decide)
  rw [h]; decide

/-- Claim C4.  For a dashed input whose two tokens map successfully: with
empty `values_to_slice` the endpoint pair is returned with no ordering check;
with a non-empty `values_to_slice` in which both values occur, the inclusive
slice is returned when the left position is strictly smaller, and otherwise
(equal included) the LHS < RHS error is raised — in particular
`parse_quarters("Fall 2013 - Spring 2010")` raises it. -/
theorem C4_dashed_slice_semantics :
    (∀ {α : Type} [DecidableEq α] (mf : String → Except PErr α) (input l r : String) (lv rv : α),
       containsSubL dashSepL input.data = true →
       dashTokens input = (l, r) →
       mf l = .ok lv → mf r = .ok rv →
       parse_user_input mf [] input = .ok (.pair lv rv)) ∧
    (∀ {α : Type} [DecidableEq α] (mf : String → Except PErr α) (vals : List α)
        (input l r : String) (lv rv : α) (li ri : Nat),
       containsSubL dashSepL input.data = true →
       dashTokens input = (l, r) →
       mf l = .ok lv → mf r = .ok rv →
       idxOf vals lv = some li → idxOf vals rv = some ri →
       parse_user_input mf vals input =
         (if li < ri then .ok (.list (sliceIncl vals li ri)) else .error .dashedNotAscending)) ∧
    parse_quarters "Fall 2013 - Spring 2010" = .error .dashedNotAscending := by
  refine ⟨?_, ?_, by decide⟩
  · intro α _ mf input l r lv rv hc ht hl hr
    simp [parse_user_input, hc, ht, hl, hr]
  · intro α _ mf vals input l r lv rv li ri hc ht hl hr hil hir
    have hne : vals.isEmpty = false := by
      cases vals
      · simp [idxOf] at hil
      · rfl
    simp [parse_user_input, hc, ht, hl, hr, hne, hil, hir]

/-- Witness for C4: `"a - c"` sliced over `["a", "b", "c"]` returns the
inclusive range. -/
theorem C4_dashed_slice_semantics_witness :
    parse_user_input okStr ["a", "b", "c"] "a - c" = .ok (.list ["a", "b", "c"]) := by
  have h := C4_dashed_slice_semantics.2.1 okStr ["a", "b", "c"] "a - c" "a" "c" "a" "c" 0 2
    (by decide) (by decide) rfl rfl (by decide) (by decide)
  rw [h]; decide

/-- Claim C5.  `parse_quarters("w 14 - w 15")` expands the dashed range into
every intervening canonical quarter inclusive, following the Winter < Spring
< Summer < Fall ordering within ascending years. -/
theorem C5_quarter_range_expansion :
    parse_quarters "w 14 - w 15" =
      .ok (.list ["Winter 2014", "Spring 2014", "Summer 2014", "Fall 2014", "Winter 2015"]) := by
  decide

/-- Claim C6.  The claim says `parse_course` is idempotent on canonical
subject-only output; in the code the digit-free branch keeps the input's
original casing while every declared subject alias is lower-case, so
`parse_course("math") = "Mathematics"` but re-parsing `"Mathematics"` raises
the "cannot be recognized" error — contradicting the docstring's step 1
("convert to lower case"). -/
theorem C6_course_idempotence_failure :
    parse_course [] false "math" = .ok "Mathematics" ∧
    parse_course [] false "Mathematics" =
      .error (.notRecognized "Mathematics"
        ["Mathematics", "Physics", "...", "English", "History"]) := by
  decide

/-- Counterexample for C7: `parse_course("math 0 5")` (number `"0"` is
stripped to empty, section `"5"` remains) returns `"Mathematics  5"` with a
double space — the empty middle component is NOT omitted, refuting "empty
components omitted ... single spaces between the present components only". -/
theorem C7_empty_number_not_omitted_cex :
    parse_course [] false "math 0 5" = .ok "Mathematics  5" ∧
    ("Mathematics  5" : String) ≠ "Mathematics 5" := by
  decide

/-- Claim C7 (amended).  With `check_records` false, `parse_course` returns
`' '.join([subject, number, section]).strip(' ')` — surrounding whitespace
trimmed, so empty trailing components disappear, but an empty number with a
nonempty section leaves a double space — and performs no existence validation
against the records (the result does not depend on `records` at all). -/
theorem C7_join_trim_without_records (s : String) (records : List String) (subj : String)
    (hsub : lookup_by_alias ALL_SUBJECTS (course_subject s) = some subj) :
    parse_course records false s = .ok (join_course subj (course_number s) (course_section s)) := by
  simp [parse_course, lookup_by_alias_exc, hsub]

/-- Witness for C7: `"phys 4a 01"` parses to `"Physics 4A 1"` regardless of
the records passed in. -/
theorem C7_join_trim_without_records_witness :
    parse_course ["x"] false "phys 4a 01" = .ok "Physics 4A 1" := by
  have h := C7_join_trim_without_records "phys 4a 01" ["x"] "Physics" (by decide)
  rw [h]; decide

/-- Claim C8.  `parse_time_of_day` accepts the shapes `H`, `H:MM`, `H:MM:SS`
(24-hour) and the am/pm-suffixed 12-hour forms, with minutes and seconds
defaulting to zero, and returns the zero-padded `'HH:MM:SS'` string; the
case-insensitive suffix and ignored internal spaces are exercised by the
concrete boundary examples. -/
theorem C8_time_of_day_shapes :
    (∀ h, h < 24 →
       parse_time_of_day ⟨hourChars h⟩ =
         .ok (pad2s h ++ ":" ++ pad2s 0 ++ ":" ++ pad2s 0)) ∧
    (∀ h m, h < 24 → m < 60 →
       parse_time_of_day ⟨hourChars h ++ ':' :: pad2c m⟩ =
         .ok (pad2s h ++ ":" ++ pad2s m ++ ":" ++ pad2s 0)) ∧
    (∀ h m s, h < 24 → m < 60 → s < 60 →
       parse_time_of_day ⟨hourChars h ++ ':' :: (pad2c m ++ ':' :: pad2c s)⟩ =
         .ok (pad2s h ++ ":" ++ pad2s m ++ ":" ++ pad2s s)) ∧
    (∀ h (pm : Bool), 1 ≤ h → h ≤ 12 →
       parse_time_of_day ⟨hourChars h ++ [if pm then 'p' else 'a', 'm']⟩ =
         .ok (pad2s (if pm then h % 12 + 12 else h % 12) ++ ":" ++ pad2s 0 ++ ":" ++ pad2s 0)) ∧
    parse_time_of_day "12:00am" = .ok "00:00:00" ∧
    parse_time_of_day "15" = .ok "15:00:00" ∧
    parse_time_of_day "1:01:59 PM" = .ok "13:01:59" := by
  refine ⟨fun h hh => parseTime_h h hh,
    fun h m hh hm => parseTime_hm h m hh hm,
    fun h m s hh hm hs => parseTime_hms h m s hh hm hs,
    fun h pm h1 h12 => parseTime_ampm h h1 h12 pm,
    by decide, by decide, by decide⟩

/-- Witness for C8: the `H:MM:SS` shape at 13:01:59. -/
theorem C8_time_of_day_shapes_witness :
    parse_time_of_day ⟨hourChars 13 ++ ':' :: (pad2c 1 ++ ':' :: pad2c 59)⟩ =
      .ok "13:01:59" := by
  have h := C8_time_of_day_shapes.2.2.1 13 1 59 (by decide) (by decide) (by decide)
  rw [h]; decide

/-- Counterexample for C9: the delimited token `"a  b"` (internal double
space) is handed to the mapping function unchanged — internal space runs are
NOT collapsed on comma-delimited tokens, refuting "collapses internal space
runs ... on each token". -/
theorem C9_delimited_run_not_collapsed_cex :
    parse_user_input okStr [] "a  b" = .ok (.list ["a  b"]) ∧
    ("a  b" : String) ≠ "a b" := by
  decide

/-- Claim C9 (amended).  The composite parser's per-token normalization is
whitespace-only and never changes character case: a comma-delimited token is
exactly the comma-split segment stripped of surrounding spaces (internal runs
preserved); consequently, with the exact-match subject alias lookup, upper
case `"MATH"` fails the lookup while `"math"` resolves to `"Mathematics"`. -/
theorem C9_whitespace_only_normalization :
    (∀ {α : Type} [DecidableEq α] (mf : String → Except PErr α) (vals : List α) (input : String),
       containsSubL dashSepL input.data = false →
       parse_user_input mf vals input =
         (match mapTokens mf (splitOnCommaL input.data) with
          | .ok vs => .ok (.list vs)
          | .error e => .error e)) ∧
    parse_user_input (lookup_by_alias_exc ALL_SUBJECTS) [] "MATH" =
      .error (.notRecognized "MATH" ["Mathematics", "Physics", "...", "English", "History"]) ∧
    parse_user_input (lookup_by_alias_exc ALL_SUBJECTS) [] "math" = .ok (.list ["Mathematics"]) := by
  refine ⟨?_, by decide, by decide⟩
  intro α _ mf vals input hc
  simp only [parse_user_input, hc, Bool.false_eq_true, not_false_eq_true, if_true]
  cases mapTokens mf (splitOnCommaL input.data) <;> rfl

/-- Witness for C9: a two-token delimited input maps to the stripped tokens. -/
theorem C9_whitespace_only_normalization_witness :
    parse_user_input okStr [] "a, b" = .ok (.list ["a", "b"]) := by
  have h := C9_whitespace_only_normalization.1 okStr [] "a, b" (by decide)
  rw [h]; decide

/-- Claim C10.  `lookup_by_ordering` accepts a decimal numeral string exactly
like the corresponding integer (for every table and every natural position),
and a string that does not parse as an integer follows the ordinary not-found
semantics: the 1..N error when raising, the `None` sentinel otherwise. -/
theorem C10_ordering_numeral_strings :
    (∀ (names : List String) (i : Nat) (r : Bool),
       lookup_by_ordering names (.str (natStr i)) r = lookup_by_ordering names (.int i) r) ∧
    (∀ (names : List String) (s : String) (r : Bool), pyIntStr s = none →
       lookup_by_ordering names (.str s) r =
         (if r then .error (.orderingOutOfRange names.length) else .ok none)) := by
  constructor
  · intro names i r
    simp [lookup_by_ordering, ordToInt, pyIntStr_natStr i]
  · intro names s r h
    simp [lookup_by_ordering, ordToInt, h]

/-- Witness for C10: the string `"2"` finds Tuesday in the weekday table, and
`"joseph"` does not parse as an integer and yields the sentinel. -/
theorem C10_ordering_numeral_strings_witness :
    lookup_by_ordering WEEKDAY_NAMES (.str (natStr 2)) true = .ok (some "Tuesday") ∧
    lookup_by_ordering WEEKDAY_NAMES (.str "joseph") false = .ok none := by
  constructor
  · rw [C10_ordering_numeral_strings.1 WEEKDAY_NAMES 2 true]; decide
  · rw [C10_ordering_numeral_strings.2 WEEKDAY_NAMES "joseph" false (by decide)]; decide

end StemCenter
